import Mathlib

/-!
Shallow embedding of the circular log-message queue of `Core/Src/log.c`
(NUCLEO-F103RB logger) and proofs about its spec.

The module keeps a byte ring `_usart2_tx_dma_buffer` of size
`LOG_DMA_BUFFER_SIZE` with producer index `_queue_tail`, consumer index
`_queue_head`, and `_last_dma_count`, the byte count of the transfer most
recently armed on the UART DMA engine.  The engine (HAL) is modelled by a
single `busy` flag: `HAL_UART_GetState` reports ready iff `busy = false`,
and `HAL_UART_Transmit_DMA` accepts a request iff it is ready and the
requested size is nonzero (the HAL rejects `Size == 0` with an error).

Ghost fields `enqueued` and `output` record, respectively, the bytes
successfully copied into the ring by `logmsg` and the bytes emitted on the
serial line by completed DMA transfers; they let us state the FIFO
transport property.  Bytes are modelled as `Nat` (their values are opaque
to the queue logic).
-/

namespace Logger

/-- Constant `LOG_DMA_BUFFER_SIZE` from `log.h`. -/
def LOG_DMA_BUFFER_SIZE : Nat := 4096

/-- Constant `LOG_ITEM_MAX_SIZE` from `log.h`: capacity of `_log_compose_buffer`. -/
def LOG_ITEM_MAX_SIZE : Nat := 128

/-- Constant `LOG_MAX_TEXT` from `log.h`. -/
def LOG_MAX_TEXT : Nat := LOG_ITEM_MAX_SIZE

/-- The mutable state of `log.c`: the two queue indices, the recorded DMA
count, the ring storage (as a total function on indices), the engine busy
flag, and two ghost histories (bytes accepted into the queue, bytes put on
the wire by completed transfers). -/
structure LogState where
  queue_head : Nat
  queue_tail : Nat
  last_dma_count : Nat
  ring : Nat → Nat
  busy : Bool
  enqueued : List Nat
  output : List Nat

/-- Function `log_init`: resets tail, head and the DMA count to 0.  The ring is the
zero-initialised static array; the engine starts idle. -/
def log_init : LogState :=
  { queue_head := 0, queue_tail := 0, last_dma_count := 0,
    ring := fun _ => 0, busy := false, enqueued := [], output := [] }

/-- Function `queue_space_available` from `log.c` lines 61-67, verbatim (a C `int`
function, hence `Int`): `if (head > tail) return SIZE - (head - tail) - 1;
else return (tail - head) - 1;`. -/
def queue_space_available (head tail : Int) : Int :=
  if head > tail then (LOG_DMA_BUFFER_SIZE : Int) - (head - tail) - 1
  else (tail - head) - 1

/-- The space formula the spec prescribes: `C - 1 - ((tail - head + C) mod C)`. -/
def space_available_spec (head tail : Int) : Int :=
  (LOG_DMA_BUFFER_SIZE : Int) - 1 -
    ((tail - head + (LOG_DMA_BUFFER_SIZE : Int)) % (LOG_DMA_BUFFER_SIZE : Int))

/-- The availability expression inlined in `logmsg` (lines 156-158):
`(head <= tail) ? (SIZE - (tail - head) - 1) : (head - tail - 1)`.
All operands are `uint16_t`; for in-range indices no wraparound occurs, so
`Nat` subtraction agrees with the C arithmetic. -/
def log_space_available (head tail : Nat) : Nat :=
  if head ≤ tail then LOG_DMA_BUFFER_SIZE - (tail - head) - 1
  else head - tail - 1

/-- One `memcpy(&ring[dst], &src[srcOff], n)` into the ring, as a function
update on the affected index range. -/
def memcpyRing (ring : Nat → Nat) (dst : Nat) (src : Nat → Nat) (srcOff n : Nat) :
    Nat → Nat :=
  fun i => if dst ≤ i ∧ i < dst + n then src (srcOff + (i - dst)) else ring i

/-- The ring contents after the copy of `logmsg` lines 166-177: if
`tail + len` reaches the physical end of storage, two `memcpy` calls
(`len_1 = SIZE - tail` bytes at `tail`, the remaining `len - len_1` bytes
at the front); otherwise a single `memcpy` of `len` bytes at `tail`. -/
def copyIntoRing (ring : Nat → Nat) (tail : Nat) (item : Nat → Nat) (len : Nat) :
    Nat → Nat :=
  if LOG_DMA_BUFFER_SIZE ≤ tail + len then
    memcpyRing (memcpyRing ring tail item 0 (LOG_DMA_BUFFER_SIZE - tail))
      0 item (LOG_DMA_BUFFER_SIZE - tail) (len - (LOG_DMA_BUFFER_SIZE - tail))
  else
    memcpyRing ring tail item 0 len

/-- The tail update of `logmsg` lines 166-177: `len - len_1` in the
wrapping branch, `tail + len` otherwise. -/
def tailAfterCopy (tail len : Nat) : Nat :=
  if LOG_DMA_BUFFER_SIZE ≤ tail + len then len - (LOG_DMA_BUFFER_SIZE - tail)
  else tail + len

/-- The `dma_bytes` expression of `restart_dma` lines 108-110: the pending
byte count computed from the two indices. -/
def dma_pending (head tail : Nat) : Nat :=
  if head ≤ tail then tail - head
  else LOG_DMA_BUFFER_SIZE - (head - tail)

/-- Reads `n` consecutive ring bytes starting at circular position `start`. -/
def ringSlice (ring : Nat → Nat) (start n : Nat) : List Nat :=
  (List.range n).map (fun i => ring ((start + i) % LOG_DMA_BUFFER_SIZE))

/-- Function `restart_dma` from `log.c` lines 104-124.  If the engine is busy it
returns 0 without touching anything.  Otherwise it computes the pending
byte count from head and tail, clips it to the contiguous run ending at the
physical end of storage, records it in `_last_dma_count`, hands that many
bytes starting at `_queue_head` to `HAL_UART_Transmit_DMA` (which accepts
the request exactly when the size is nonzero) and returns the count. -/
def restart_dma (s : LogState) : LogState × Nat :=
  if s.busy then (s, 0)
  else
    let dma_bytes := if s.queue_head ≤ s.queue_tail then
        s.queue_tail - s.queue_head
      else
        LOG_DMA_BUFFER_SIZE - (s.queue_head - s.queue_tail)
    let qty_to_send := if dma_bytes > LOG_DMA_BUFFER_SIZE - s.queue_head then
        LOG_DMA_BUFFER_SIZE - s.queue_head
      else dma_bytes
    ({ s with last_dma_count := qty_to_send, busy := decide (0 < qty_to_send) },
     qty_to_send)

/-- The bytes of a rendered log item of length `n`, read off the compose
buffer contents `item`. -/
def itemBytes (item : Nat → Nat) (n : Nat) : List Nat :=
  (List.range n).map item

/-- The state after the accepted-enqueue body of `logmsg` (lines 163-177):
item bytes copied into the ring at `tail` (wrapping if needed), tail
advanced, and the ghost enqueue history extended. -/
def acceptState (s : LogState) (item : Nat → Nat) (len : Nat) : LogState :=
  { s with
    ring := copyIntoRing s.ring s.queue_tail item len,
    queue_tail := tailAfterCopy s.queue_tail len,
    enqueued := s.enqueued ++ itemBytes item len }

/-- Function `logmsg` from `log.c` lines 156-182: the space check against the ring,
the (possibly split) copy of the composed item into the ring, the tail
update, and the trailing `restart_dma` call.  The rendering into
`_log_compose_buffer` (lines 141-154) is modelled separately by
`logLength`; here the compose buffer contents at copy time are abstracted
as `item` and the computed total item length as `log_length`.  Returns the
updated state and the C return value (`-1` on rejection, else the item
length). -/
def logmsg (s : LogState) (item : Nat → Nat) (log_length : Nat) : LogState × Int :=
  if log_length > log_space_available s.queue_head s.queue_tail then
    (s, -1)
  else
    ((restart_dma (acceptState s item log_length)).1, (log_length : Int))

/-- Function `HAL_UART_TxCpltCallback` from `log.c` lines 190-239 (the live code:
lines 220-238).  If the queue is empty it returns with no further action;
otherwise it advances the head by `_last_dma_count` (wrapping by a single
subtraction), zeroes `_last_dma_count`, and calls `restart_dma` to chain
the next transfer.  The LED toggle has no queue effect. -/
def HAL_UART_TxCpltCallback (s : LogState) : LogState :=
  if s.queue_head = s.queue_tail then s
  else
    let h := s.queue_head + s.last_dma_count
    let h' := if LOG_DMA_BUFFER_SIZE ≤ h then h - LOG_DMA_BUFFER_SIZE else h
    (restart_dma { s with queue_head := h', last_dma_count := 0 }).1

/-- The byte range armed by the most recent `restart_dma`: `last_dma_count`
ring bytes starting at `queue_head`. -/
def armedBytes (s : LogState) : List Nat :=
  ringSlice s.ring s.queue_head s.last_dma_count

/-- The transfer-completion event: only fires while a transfer is in
flight.  The hardware emits the armed bytes on the line and the HAL marks
the engine ready before invoking `HAL_UART_TxCpltCallback`. -/
def complete (s : LogState) : LogState :=
  if s.busy then
    HAL_UART_TxCpltCallback { s with busy := false, output := s.output ++ armedBytes s }
  else s

/-- The state just after the non-empty completion handler advanced the
head and zeroed the DMA count (lines 227-232), with the engine marked
ready and the armed bytes appended to the ghost output. -/
def afterComplete (s : LogState) : LogState :=
  { s with
    queue_head :=
      if LOG_DMA_BUFFER_SIZE ≤ s.queue_head + s.last_dma_count then
        s.queue_head + s.last_dma_count - LOG_DMA_BUFFER_SIZE
      else s.queue_head + s.last_dma_count,
    last_dma_count := 0,
    busy := false,
    output := s.output ++ armedBytes s }

/-- Iterated completion events. -/
def completeIter : Nat → LogState → LogState
  | 0, s => s
  | n + 1, s => completeIter n (complete s)

/-- Number of pending (enqueued, untransmitted) bytes, `(tail - head) mod C`
in modular arithmetic. -/
def pendingCount (s : LogState) : Nat :=
  (s.queue_tail + LOG_DMA_BUFFER_SIZE - s.queue_head) % LOG_DMA_BUFFER_SIZE

/-- The pending bytes themselves: the circular range `[head, tail)`. -/
def pendingBytes (s : LogState) : List Nat :=
  ringSlice s.ring s.queue_head (pendingCount s)

/-- Decimal digit count, by fuelled division (enough fuel for any value the
32-bit tick can take). -/
def decimalLenAux : Nat → Nat → Nat
  | 0, _ => 1
  | fuel + 1, n => if n < 10 then 1 else decimalLenAux fuel (n / 10) + 1

/-- Decimal digit count of a tick value. -/
def decimalLen (n : Nat) : Nat := decimalLenAux 15 n

/-- Length of the timestamp prefix written by
`snprintf(buf, LOG_MAX_TEXT, "(%lu) ", HAL_GetTick())`: the digits of the
tick plus the two parentheses and the space.  For a 32-bit tick this is at
most 13, well under `LOG_MAX_TEXT`, so `snprintf` writes it in full and
returns this value. -/
def ts_len (tick : Nat) : Nat := decimalLen tick + 3

/-- The total item length computed by `logmsg` lines 146-154.  `vsn_ret` is
the value returned by `vsnprintf(&buf[ts_len], LOG_MAX_TEXT - ts_len, ...)`,
i.e. the untruncated length of the rendered text.  The code clamps it
against `LOG_MAX_TEXT`, then adds 1 for the line feed and `ts_len` for the
timestamp prefix. -/
def logLength (tick vsn_ret : Nat) : Nat :=
  let l := if LOG_MAX_TEXT ≤ vsn_ret then LOG_MAX_TEXT - 1 else vsn_ret
  l + 1 + ts_len tick

/-- States reachable from `log_init` under the operations of the module:
enqueues (with an arbitrary rendered item), bare pump calls, and transfer
completions. -/
inductive Reachable : LogState → Prop where
  | init : Reachable log_init
  | msg (s : LogState) (item : Nat → Nat) (len : Nat) :
      Reachable s → Reachable (logmsg s item len).1
  | pump (s : LogState) : Reachable s → Reachable (restart_dma s).1
  | done (s : LogState) : Reachable s → Reachable (complete s)

/-- The inductive invariant: indices in range; while a transfer is in
flight its recorded count is positive, covered by the pending region, and
stops at the physical end of storage; while idle the recorded count is zero
and the queue is drained; and the output so far followed by the pending
bytes is exactly the accepted-enqueue history. -/
def Inv (s : LogState) : Prop :=
  s.queue_head < LOG_DMA_BUFFER_SIZE ∧
  s.queue_tail < LOG_DMA_BUFFER_SIZE ∧
  (s.busy = true → 0 < s.last_dma_count ∧
    s.last_dma_count ≤ pendingCount s ∧
    s.queue_head + s.last_dma_count ≤ LOG_DMA_BUFFER_SIZE) ∧
  (s.busy = false → s.last_dma_count = 0 ∧ pendingCount s = 0) ∧
  s.output ++ pendingBytes s = s.enqueued

/-- A wrapped-queue state (`head = 4090 > tail = 2`, 8 pending bytes, the
contiguous run to the end of storage is 6 bytes), engine idle. -/
def sampleWrapped : LogState :=
  { queue_head := 4090, queue_tail := 2, last_dma_count := 0,
    ring := fun i => i % 256, busy := false, enqueued := [], output := [] }

/-- A state as seen by the completion callback after a 10-byte transfer
finished while 100 bytes are pending (more messages were enqueued while
the transfer was in flight): engine just turned ready. -/
def sampleMidQueue : LogState :=
  { queue_head := 0, queue_tail := 100, last_dma_count := 10,
    ring := fun i => i % 256, busy := false, enqueued := [], output := [] }

/-- A state with the tail 10 bytes short of the physical end of storage
(`tail = 4086`) and plenty of free space. -/
def sampleNearEnd : LogState :=
  { queue_head := 100, queue_tail := 4086, last_dma_count := 0,
    ring := fun _ => 0, busy := false, enqueued := [], output := [] }

/-- A state with the tail 6 bytes short of the physical end of storage
(`tail = 4090`), used for a wrapping 10-byte enqueue. -/
def sampleLate : LogState :=
  { queue_head := 50, queue_tail := 4090, last_dma_count := 0,
    ring := fun _ => 0, busy := false, enqueued := [], output := [] }

/-- An empty-queue state (`head = tail = 5`) with a stale nonzero
`last_dma_count`. -/
def sampleEmpty : LogState :=
  { queue_head := 5, queue_tail := 5, last_dma_count := 7,
    ring := fun _ => 0, busy := false, enqueued := [], output := [] }

section BasicLemmas

/-- Lemma: `restart_dma` never touches the queue indices. -/
theorem restart_dma_queue_head (s : LogState) :
    (restart_dma s).1.queue_head = s.queue_head := by
  unfold restart_dma; split <;> rfl

theorem restart_dma_queue_tail (s : LogState) :
    (restart_dma s).1.queue_tail = s.queue_tail := by
  unfold restart_dma; split <;> rfl

theorem restart_dma_ring (s : LogState) : (restart_dma s).1.ring = s.ring := by
  unfold restart_dma; split <;> rfl

theorem restart_dma_enqueued (s : LogState) :
    (restart_dma s).1.enqueued = s.enqueued := by
  unfold restart_dma; split <;> rfl

theorem restart_dma_output (s : LogState) :
    (restart_dma s).1.output = s.output := by
  unfold restart_dma; split <;> rfl

theorem restart_dma_pendingCount (s : LogState) :
    pendingCount (restart_dma s).1 = pendingCount s := by
  unfold pendingCount
  rw [restart_dma_queue_head, restart_dma_queue_tail]

theorem restart_dma_pendingBytes (s : LogState) :
    pendingBytes (restart_dma s).1 = pendingBytes s := by
  unfold pendingBytes
  rw [restart_dma_ring, restart_dma_queue_head, restart_dma_pendingCount]

theorem restart_dma_busy_case (s : LogState) (h : s.busy = true) :
    restart_dma s = (s, 0) := by
  unfold restart_dma; rw [h]; rfl

/-- On an idle engine, `restart_dma` records and returns
`min (dma_pending head tail) (SIZE - head)` and arms the engine iff that
count is positive. -/
theorem restart_dma_idle_case (s : LogState) (h : s.busy = false) :
    restart_dma s =
      ({ s with
          last_dma_count :=
            min (dma_pending s.queue_head s.queue_tail)
              (LOG_DMA_BUFFER_SIZE - s.queue_head),
          busy := decide (0 < min (dma_pending s.queue_head s.queue_tail)
              (LOG_DMA_BUFFER_SIZE - s.queue_head)) },
       min (dma_pending s.queue_head s.queue_tail)
         (LOG_DMA_BUFFER_SIZE - s.queue_head)) := by
  unfold restart_dma dma_pending
  rw [h]
  simp only [Bool.false_eq_true, if_false]
  have hmin : (if (if s.queue_head ≤ s.queue_tail then s.queue_tail - s.queue_head
        else LOG_DMA_BUFFER_SIZE - (s.queue_head - s.queue_tail)) >
          LOG_DMA_BUFFER_SIZE - s.queue_head then
        LOG_DMA_BUFFER_SIZE - s.queue_head
      else if s.queue_head ≤ s.queue_tail then s.queue_tail - s.queue_head
        else LOG_DMA_BUFFER_SIZE - (s.queue_head - s.queue_tail)) =
      min (if s.queue_head ≤ s.queue_tail then s.queue_tail - s.queue_head
        else LOG_DMA_BUFFER_SIZE - (s.queue_head - s.queue_tail))
        (LOG_DMA_BUFFER_SIZE - s.queue_head) := by
    by_cases hA : s.queue_head ≤ s.queue_tail
    · simp only [if_pos hA, Nat.min_def]
      split <;> split <;> omega
    · simp only [if_neg hA, Nat.min_def]
      split <;> split <;> omega
  rw [hmin]

end BasicLemmas

/-- C2: the claim states that both `queue_space_available` and the
availability expression inlined in `logmsg` equal
`SIZE - 1 - ((tail - head + SIZE) mod SIZE)`.  This fails for the
standalone function: at `head = tail = 0` (empty queue) it returns `-1`
while the formula (and the inlined expression, and the header comment of
the function itself) give `SIZE - 1 = 4095`.  Its two branches are swapped
relative to the convention used by the rest of the module. -/
theorem c2_queue_space_available_mismatch :
    queue_space_available 0 0 = -1 ∧
    space_available_spec 0 0 = (LOG_DMA_BUFFER_SIZE : Int) - 1 ∧
    queue_space_available 0 0 ≠ space_available_spec 0 0 ∧
    log_space_available 0 0 = LOG_DMA_BUFFER_SIZE - 1 ∧
    queue_space_available 4090 2 = 7 ∧
    space_available_spec 4090 2 = 4087 := by
  refine ⟨by decide, by decide, by decide, by decide, by decide, by decide⟩

/-- C3: the claim states that the total item length computed by `logmsg`
(timestamp prefix + clamped text length + 1 line feed) never exceeds
`LOG_ITEM_MAX_SIZE = 128`.  It fails: the clamp compares the `vsnprintf`
return value against `LOG_MAX_TEXT` instead of the capacity actually
passed, `LOG_MAX_TEXT - ts_len`.  With tick 0 (timestamp `"(0) "`, 4
bytes) and a rendered text of untruncated length 127, the computed total
is `127 + 1 + 4 = 132 > 128`, so the line-feed store at index 131 and the
132-byte copy overrun the 128-byte compose buffer. -/
theorem c3_logLength_overruns_compose_buffer :
    ts_len 0 = 4 ∧ logLength 0 127 = 132 ∧
    LOG_ITEM_MAX_SIZE < logLength 0 127 ∧
    LOG_ITEM_MAX_SIZE ≤ logLength 0 127 - 1 := by
  refine ⟨by decide, by decide, by decide, by decide⟩

/-- C4: an enqueue whose total rendered length exceeds the currently
available space returns the sentinel `-1` and leaves the whole state
(ring bytes, head, tail, everything) exactly unchanged. -/
theorem c4_reject_is_atomic (s : LogState) (item : Nat → Nat) (log_length : Nat)
    (h : log_length > log_space_available s.queue_head s.queue_tail) :
    logmsg s item log_length = (s, -1) := by
  unfold logmsg
  rw [if_pos h]

/-- C4 witness: at the freshly initialised state, 4096 bytes exceed the
4095 available, and the enqueue is rejected unchanged. -/
theorem c4_witness :
    4096 > log_space_available log_init.queue_head log_init.queue_tail ∧
    logmsg log_init (fun i => i) 4096 = (log_init, -1) :=
  ⟨by decide, c4_reject_is_atomic log_init (fun i => i) 4096 (by decide)⟩

/-- C9: when the completion callback runs with `head = tail`, it returns
with no further action at all: the state (head, tail, `last_dma_count`,
engine flag) is exactly unchanged and no transfer is armed. -/
theorem c9_complete_on_empty_is_noop (s : LogState)
    (h : s.queue_head = s.queue_tail) :
    HAL_UART_TxCpltCallback s = s := by
  unfold HAL_UART_TxCpltCallback
  rw [if_pos h]

/-- C9 witness: the empty-queue state with a stale `last_dma_count` is
returned untouched. -/
theorem c9_witness :
    sampleEmpty.queue_head = sampleEmpty.queue_tail ∧
    HAL_UART_TxCpltCallback sampleEmpty = sampleEmpty :=
  ⟨rfl, c9_complete_on_empty_is_noop sampleEmpty rfl⟩

/-- C5: with in-range indices, `restart_dma` on a busy engine returns 0 and
changes nothing; on an idle engine it computes the pending count with the
source conditional, arms and records exactly
`min pending (SIZE - head)` bytes starting at offset `head`, returns that
count, and that count never exceeds `SIZE - head`. -/
theorem c5_restart_dma_bounds (s : LogState)
    (_hh : s.queue_head < LOG_DMA_BUFFER_SIZE)
    (_ht : s.queue_tail < LOG_DMA_BUFFER_SIZE) :
    (s.busy = true → restart_dma s = (s, 0)) ∧
    (s.busy = false →
      (restart_dma s).2 =
        min (dma_pending s.queue_head s.queue_tail)
          (LOG_DMA_BUFFER_SIZE - s.queue_head) ∧
      (restart_dma s).1.last_dma_count = (restart_dma s).2 ∧
      (restart_dma s).1.queue_head = s.queue_head ∧
      (restart_dma s).1.queue_tail = s.queue_tail ∧
      (restart_dma s).1.ring = s.ring ∧
      (0 < (restart_dma s).2 → (restart_dma s).1.busy = true) ∧
      (restart_dma s).2 ≤ LOG_DMA_BUFFER_SIZE - s.queue_head) := by
  constructor
  · intro hb
    exact restart_dma_busy_case s hb
  · intro hb
    rw [restart_dma_idle_case s hb]
    refine ⟨rfl, rfl, rfl, rfl, rfl, ?_, Nat.min_le_right _ _⟩
    intro hpos
    simp only [decide_eq_true_eq]
    omega

/-- C5 witness: the wrapped state `head = 4090, tail = 2` has 8 pending
bytes, the run to the end of storage is 6 bytes, and an idle `restart_dma`
arms exactly 6 bytes. -/
theorem c5_witness :
    (sampleWrapped.busy = true → restart_dma sampleWrapped = (sampleWrapped, 0)) ∧
    (sampleWrapped.busy = false →
      (restart_dma sampleWrapped).2 =
        min (dma_pending sampleWrapped.queue_head sampleWrapped.queue_tail)
          (LOG_DMA_BUFFER_SIZE - sampleWrapped.queue_head) ∧
      (restart_dma sampleWrapped).1.last_dma_count = (restart_dma sampleWrapped).2 ∧
      (restart_dma sampleWrapped).1.queue_head = sampleWrapped.queue_head ∧
      (restart_dma sampleWrapped).1.queue_tail = sampleWrapped.queue_tail ∧
      (restart_dma sampleWrapped).1.ring = sampleWrapped.ring ∧
      (0 < (restart_dma sampleWrapped).2 →
        (restart_dma sampleWrapped).1.busy = true) ∧
      (restart_dma sampleWrapped).2 ≤
        LOG_DMA_BUFFER_SIZE - sampleWrapped.queue_head) :=
  c5_restart_dma_bounds sampleWrapped (by decide) (by decide)

section CopyLemmas

theorem memcpyRing_in (ring : Nat → Nat) (dst : Nat) (src : Nat → Nat)
    (srcOff n i : Nat) (h1 : dst ≤ i) (h2 : i < dst + n) :
    memcpyRing ring dst src srcOff n i = src (srcOff + (i - dst)) := by
  unfold memcpyRing
  rw [if_pos ⟨h1, h2⟩]

theorem memcpyRing_out (ring : Nat → Nat) (dst : Nat) (src : Nat → Nat)
    (srcOff n i : Nat) (h : ¬(dst ≤ i ∧ i < dst + n)) :
    memcpyRing ring dst src srcOff n i = ring i := by
  unfold memcpyRing
  rw [if_neg h]

theorem memcpyRing_zero (ring : Nat → Nat) (dst : Nat) (src : Nat → Nat)
    (srcOff : Nat) : memcpyRing ring dst src srcOff 0 = ring := by
  funext i
  rw [memcpyRing_out]
  omega

/-- The bytes `logmsg` lands at circular positions `tail + j` equal the
composed item bytes, wrap or no wrap. -/
theorem copyIntoRing_write (ring : Nat → Nat) (tail : Nat) (item : Nat → Nat)
    (len : Nat) (ht : tail < LOG_DMA_BUFFER_SIZE) (hlen : len ≤ LOG_DMA_BUFFER_SIZE) :
    ∀ j, j < len →
      copyIntoRing ring tail item len ((tail + j) % LOG_DMA_BUFFER_SIZE) = item j := by
  intro j hj
  unfold copyIntoRing
  by_cases hw : LOG_DMA_BUFFER_SIZE ≤ tail + len
  · rw [if_pos hw]
    by_cases hj1 : tail + j < LOG_DMA_BUFFER_SIZE
    · rw [Nat.mod_eq_of_lt hj1,
        memcpyRing_out (memcpyRing ring tail item 0 (LOG_DMA_BUFFER_SIZE - tail))
          0 item (LOG_DMA_BUFFER_SIZE - tail) (len - (LOG_DMA_BUFFER_SIZE - tail))
          (tail + j) (by omega),
        memcpyRing_in ring tail item 0 (LOG_DMA_BUFFER_SIZE - tail) (tail + j)
          (by omega) (by omega)]
      exact congrArg item (by omega)
    · have hmod : (tail + j) % LOG_DMA_BUFFER_SIZE = tail + j - LOG_DMA_BUFFER_SIZE := by
        rw [Nat.mod_eq_sub_mod (by omega)]
        exact Nat.mod_eq_of_lt (by omega)
      rw [hmod,
        memcpyRing_in (memcpyRing ring tail item 0 (LOG_DMA_BUFFER_SIZE - tail))
          0 item (LOG_DMA_BUFFER_SIZE - tail) (len - (LOG_DMA_BUFFER_SIZE - tail))
          (tail + j - LOG_DMA_BUFFER_SIZE) (by omega) (by omega)]
      exact congrArg item (by omega)
  · rw [if_neg hw, Nat.mod_eq_of_lt (by omega),
      memcpyRing_in ring tail item 0 len (tail + j) (by omega) (by omega)]
    exact congrArg item (by omega)

/-- Ring positions outside the circular write range `[tail, tail + len)`
are untouched by the copy. -/
theorem copyIntoRing_frame (ring : Nat → Nat) (tail : Nat) (item : Nat → Nat)
    (len : Nat) (ht : tail < LOG_DMA_BUFFER_SIZE) (hlen : len ≤ LOG_DMA_BUFFER_SIZE)
    (k : Nat) (hk : ∀ j, j < len → k ≠ (tail + j) % LOG_DMA_BUFFER_SIZE) :
    copyIntoRing ring tail item len k = ring k := by
  unfold copyIntoRing
  by_cases hw : LOG_DMA_BUFFER_SIZE ≤ tail + len
  · have hout1 : ¬(0 ≤ k ∧ k < 0 + (len - (LOG_DMA_BUFFER_SIZE - tail))) := by
      rintro ⟨-, hcon⟩
      refine hk (LOG_DMA_BUFFER_SIZE - tail + k) (by omega) ?_
      have harith : tail + (LOG_DMA_BUFFER_SIZE - tail + k) =
          LOG_DMA_BUFFER_SIZE + k := by omega
      rw [harith, Nat.add_mod_left, Nat.mod_eq_of_lt (by omega)]
    have hout2 : ¬(tail ≤ k ∧ k < tail + (LOG_DMA_BUFFER_SIZE - tail)) := by
      rintro ⟨hk1, hcon⟩
      refine hk (k - tail) (by omega) ?_
      rw [Nat.mod_eq_of_lt (by omega)]
      omega
    rw [if_pos hw,
      memcpyRing_out (memcpyRing ring tail item 0 (LOG_DMA_BUFFER_SIZE - tail))
        0 item (LOG_DMA_BUFFER_SIZE - tail) (len - (LOG_DMA_BUFFER_SIZE - tail))
        k hout1,
      memcpyRing_out ring tail item 0 (LOG_DMA_BUFFER_SIZE - tail) k hout2]
  · have hout : ¬(tail ≤ k ∧ k < tail + len) := by
      rintro ⟨hk1, hcon⟩
      refine hk (k - tail) (by omega) ?_
      rw [Nat.mod_eq_of_lt (by omega)]
      omega
    rw [if_neg hw, memcpyRing_out ring tail item 0 len k hout]

theorem log_space_available_le (head tail : Nat)
    (hh : head < LOG_DMA_BUFFER_SIZE) :
    log_space_available head tail ≤ LOG_DMA_BUFFER_SIZE - 1 := by
  unfold log_space_available
  split <;> omega

/-- The accepted branch of `logmsg`, written out. -/
theorem logmsg_accept (s : LogState) (item : Nat → Nat) (len : Nat)
    (h : ¬(len > log_space_available s.queue_head s.queue_tail)) :
    logmsg s item len = ((restart_dma (acceptState s item len)).1, (len : Int)) := by
  unfold logmsg
  rw [if_neg h]

end CopyLemmas

/-- C6: the claim states that after a completion with a non-empty queue,
`head` has advanced by the armed count modulo `SIZE` and
`last_request_length` has been reset to 0.  The head part holds, but the
reset does not survive to the end of the handler: the handler zeroes
`_last_dma_count` and then calls `restart_dma`, which overwrites it with
the count of the next transfer it arms.  At `sampleMidQueue` (10 bytes
just completed, 100 bytes pending) the handler returns with
`last_dma_count = 90`, not 0. -/
theorem c6_counterexample :
    sampleMidQueue.queue_head ≠ sampleMidQueue.queue_tail ∧
    (HAL_UART_TxCpltCallback sampleMidQueue).queue_head =
      (sampleMidQueue.queue_head + sampleMidQueue.last_dma_count) %
        LOG_DMA_BUFFER_SIZE ∧
    (HAL_UART_TxCpltCallback sampleMidQueue).last_dma_count = 90 ∧
    (HAL_UART_TxCpltCallback sampleMidQueue).last_dma_count ≠ 0 := by
  set_option maxRecDepth 4000 in
  refine ⟨by decide, by decide, by decide, by decide⟩

/-- The non-empty branch of the completion callback, written out. -/
theorem callback_nonempty (s : LogState) (hne : s.queue_head ≠ s.queue_tail) :
    HAL_UART_TxCpltCallback s =
      (restart_dma { s with
          queue_head :=
            if LOG_DMA_BUFFER_SIZE ≤ s.queue_head + s.last_dma_count then
              s.queue_head + s.last_dma_count - LOG_DMA_BUFFER_SIZE
            else s.queue_head + s.last_dma_count,
          last_dma_count := 0 }).1 := by
  unfold HAL_UART_TxCpltCallback
  rw [if_neg hne]

/-- C6 amended: when the completion callback runs with a non-empty queue
(engine ready, armed count at most `SIZE`), `head` advances by exactly the
previously armed `last_dma_count` modulo `SIZE` and `tail` is untouched;
`last_dma_count` is zeroed and then set by the chained `restart_dma` to
the newly armed count `min pending (SIZE - head)` at the new head, which
is 0 exactly when the queue is then empty (so it is 0 after the handler
returns only in that case). -/
theorem c6_complete_advances_head (s : LogState)
    (hh : s.queue_head < LOG_DMA_BUFFER_SIZE)
    (_ht : s.queue_tail < LOG_DMA_BUFFER_SIZE)
    (hne : s.queue_head ≠ s.queue_tail)
    (hl : s.last_dma_count ≤ LOG_DMA_BUFFER_SIZE)
    (hb : s.busy = false) :
    (HAL_UART_TxCpltCallback s).queue_head =
      (s.queue_head + s.last_dma_count) % LOG_DMA_BUFFER_SIZE ∧
    (HAL_UART_TxCpltCallback s).queue_tail = s.queue_tail ∧
    (HAL_UART_TxCpltCallback s).last_dma_count =
      min (dma_pending ((s.queue_head + s.last_dma_count) % LOG_DMA_BUFFER_SIZE)
            s.queue_tail)
        (LOG_DMA_BUFFER_SIZE -
          (s.queue_head + s.last_dma_count) % LOG_DMA_BUFFER_SIZE) ∧
    ((s.queue_head + s.last_dma_count) % LOG_DMA_BUFFER_SIZE = s.queue_tail →
      (HAL_UART_TxCpltCallback s).last_dma_count = 0) := by
  have hmod : (if LOG_DMA_BUFFER_SIZE ≤ s.queue_head + s.last_dma_count then
      s.queue_head + s.last_dma_count - LOG_DMA_BUFFER_SIZE
    else s.queue_head + s.last_dma_count) =
      (s.queue_head + s.last_dma_count) % LOG_DMA_BUFFER_SIZE := by
    split
    · rw [Nat.mod_eq_sub_mod (by omega), Nat.mod_eq_of_lt (by omega)]
    · rw [Nat.mod_eq_of_lt (by omega)]
  rw [callback_nonempty s hne, hmod,
    restart_dma_idle_case
      { s with
        queue_head := (s.queue_head + s.last_dma_count) % LOG_DMA_BUFFER_SIZE,
        last_dma_count := 0 } hb]
  refine ⟨rfl, rfl, rfl, ?_⟩
  intro hdrained
  simp only [hdrained]
  unfold dma_pending
  rw [if_pos (le_refl _)]
  simp

/-- C6 witness: at `sampleMidQueue` the head advances to 10 and the
handler returns with the freshly armed 90-byte transfer recorded. -/
theorem c6_witness :
    (HAL_UART_TxCpltCallback sampleMidQueue).queue_head =
      (sampleMidQueue.queue_head + sampleMidQueue.last_dma_count) %
        LOG_DMA_BUFFER_SIZE ∧
    (HAL_UART_TxCpltCallback sampleMidQueue).queue_tail =
      sampleMidQueue.queue_tail ∧
    (HAL_UART_TxCpltCallback sampleMidQueue).last_dma_count =
      min (dma_pending
            ((sampleMidQueue.queue_head + sampleMidQueue.last_dma_count) %
              LOG_DMA_BUFFER_SIZE) sampleMidQueue.queue_tail)
        (LOG_DMA_BUFFER_SIZE -
          (sampleMidQueue.queue_head + sampleMidQueue.last_dma_count) %
            LOG_DMA_BUFFER_SIZE) ∧
    ((sampleMidQueue.queue_head + sampleMidQueue.last_dma_count) %
        LOG_DMA_BUFFER_SIZE = sampleMidQueue.queue_tail →
      (HAL_UART_TxCpltCallback sampleMidQueue).last_dma_count = 0) :=
  c6_complete_advances_head sampleMidQueue (by decide) (by decide) (by decide)
    (by decide) (by decide)

/-- C10: an accepted enqueue that ends exactly at the physical end of
storage (`tail + len = SIZE`) takes the wrapping branch: the first copy
transfers all `len` bytes to the tail-end, the second copy transfers zero
bytes (so the ring update is a single `memcpy` worth of bytes), and the
tail is set to 0, never to `SIZE`. -/
theorem c10_exact_fit_wraps_tail_to_zero (s : LogState) (item : Nat → Nat)
    (len : Nat)
    (hlen : len ≤ log_space_available s.queue_head s.queue_tail)
    (hfit : s.queue_tail + len = LOG_DMA_BUFFER_SIZE) :
    (logmsg s item len).2 = (len : Int) ∧
    (logmsg s item len).1.queue_tail = 0 ∧
    (logmsg s item len).1.ring = memcpyRing s.ring s.queue_tail item 0 len := by
  rw [logmsg_accept s item len (by omega)]
  have hlen1 : LOG_DMA_BUFFER_SIZE - s.queue_tail = len := by omega
  refine ⟨rfl, ?_, ?_⟩
  · rw [restart_dma_queue_tail]
    show tailAfterCopy s.queue_tail len = 0
    unfold tailAfterCopy
    rw [if_pos (by omega)]
    omega
  · rw [restart_dma_ring]
    show copyIntoRing s.ring s.queue_tail item len = _
    unfold copyIntoRing
    rw [if_pos (by omega), hlen1]
    rw [Nat.sub_self, memcpyRing_zero]

/-- C10 witness: at `sampleNearEnd` (`tail = 4086`) a 10-byte enqueue fits
exactly and leaves `tail = 0`. -/
theorem c10_witness :
    (logmsg sampleNearEnd (fun i => 200 + i) 10).2 = (10 : Int) ∧
    (logmsg sampleNearEnd (fun i => 200 + i) 10).1.queue_tail = 0 ∧
    (logmsg sampleNearEnd (fun i => 200 + i) 10).1.ring =
      memcpyRing sampleNearEnd.ring sampleNearEnd.queue_tail
        (fun i => 200 + i) 0 10 :=
  c10_exact_fit_wraps_tail_to_zero sampleNearEnd (fun i => 200 + i) 10
    (by decide) (by decide)

/-- C7: an accepted enqueue of `len` bytes copies in two passes when the
copy would cross the physical end of storage (`SIZE - tail` bytes at the
tail-end, the remaining `len - (SIZE - tail)` at the front, tail becoming
`len - (SIZE - tail)`), in one pass otherwise (tail becoming
`tail + len`); in both cases the bytes landing at circular positions
`tail + i` for `i < len` are exactly the composed item bytes. -/
theorem c7_enqueue_copy (s : LogState) (item : Nat → Nat) (len : Nat)
    (hh : s.queue_head < LOG_DMA_BUFFER_SIZE)
    (ht : s.queue_tail < LOG_DMA_BUFFER_SIZE)
    (hlen : len ≤ log_space_available s.queue_head s.queue_tail) :
    (logmsg s item len).2 = (len : Int) ∧
    (LOG_DMA_BUFFER_SIZE < s.queue_tail + len →
      (logmsg s item len).1.queue_tail =
        len - (LOG_DMA_BUFFER_SIZE - s.queue_tail) ∧
      (logmsg s item len).1.ring =
        memcpyRing
          (memcpyRing s.ring s.queue_tail item 0
            (LOG_DMA_BUFFER_SIZE - s.queue_tail))
          0 item (LOG_DMA_BUFFER_SIZE - s.queue_tail)
          (len - (LOG_DMA_BUFFER_SIZE - s.queue_tail))) ∧
    (s.queue_tail + len < LOG_DMA_BUFFER_SIZE →
      (logmsg s item len).1.queue_tail = s.queue_tail + len ∧
      (logmsg s item len).1.ring = memcpyRing s.ring s.queue_tail item 0 len) ∧
    (∀ i, i < len →
      (logmsg s item len).1.ring ((s.queue_tail + i) % LOG_DMA_BUFFER_SIZE) =
        item i) := by
  have havail := log_space_available_le s.queue_head s.queue_tail hh
  rw [logmsg_accept s item len (by omega)]
  refine ⟨rfl, ?_, ?_, ?_⟩
  · intro hwrap
    rw [restart_dma_queue_tail, restart_dma_ring]
    constructor
    · show tailAfterCopy s.queue_tail len = _
      unfold tailAfterCopy
      rw [if_pos (by omega)]
    · show copyIntoRing s.ring s.queue_tail item len = _
      unfold copyIntoRing
      rw [if_pos (by omega)]
  · intro hnowrap
    rw [restart_dma_queue_tail, restart_dma_ring]
    constructor
    · show tailAfterCopy s.queue_tail len = _
      unfold tailAfterCopy
      rw [if_neg (by omega)]
    · show copyIntoRing s.ring s.queue_tail item len = _
      unfold copyIntoRing
      rw [if_neg (by omega)]
  · intro i hi
    rw [restart_dma_ring]
    exact copyIntoRing_write s.ring s.queue_tail item len ht (by omega) i hi

/-- C7 witness: at `sampleLate` (`tail = 4090`) a 10-byte enqueue wraps
and all 10 bytes land at circular positions 4090..4095, 0..3. -/
theorem c7_witness :
    (logmsg sampleLate (fun i => 100 + i) 10).2 = (10 : Int) ∧
    (LOG_DMA_BUFFER_SIZE < sampleLate.queue_tail + 10 →
      (logmsg sampleLate (fun i => 100 + i) 10).1.queue_tail =
        10 - (LOG_DMA_BUFFER_SIZE - sampleLate.queue_tail) ∧
      (logmsg sampleLate (fun i => 100 + i) 10).1.ring =
        memcpyRing
          (memcpyRing sampleLate.ring sampleLate.queue_tail (fun i => 100 + i) 0
            (LOG_DMA_BUFFER_SIZE - sampleLate.queue_tail))
          0 (fun i => 100 + i) (LOG_DMA_BUFFER_SIZE - sampleLate.queue_tail)
          (10 - (LOG_DMA_BUFFER_SIZE - sampleLate.queue_tail))) ∧
    (sampleLate.queue_tail + 10 < LOG_DMA_BUFFER_SIZE →
      (logmsg sampleLate (fun i => 100 + i) 10).1.queue_tail =
        sampleLate.queue_tail + 10 ∧
      (logmsg sampleLate (fun i => 100 + i) 10).1.ring =
        memcpyRing sampleLate.ring sampleLate.queue_tail (fun i => 100 + i) 0 10) ∧
    (∀ i, i < 10 →
      (logmsg sampleLate (fun i => 100 + i) 10).1.ring
        ((sampleLate.queue_tail + i) % LOG_DMA_BUFFER_SIZE) = 100 + i) :=
  c7_enqueue_copy sampleLate (fun i => 100 + i) 10 (by decide) (by decide)
    (by decide)

section PendingArith

theorem pendingCount_lt (s : LogState) : pendingCount s < LOG_DMA_BUFFER_SIZE :=
  Nat.mod_lt _ (by decide)

theorem pendingCount_eq_zero_iff (s : LogState)
    (hh : s.queue_head < LOG_DMA_BUFFER_SIZE)
    (ht : s.queue_tail < LOG_DMA_BUFFER_SIZE) :
    pendingCount s = 0 ↔ s.queue_head = s.queue_tail := by
  unfold pendingCount
  simp only [LOG_DMA_BUFFER_SIZE] at *
  omega

theorem head_add_pendingCount (s : LogState)
    (hh : s.queue_head < LOG_DMA_BUFFER_SIZE)
    (ht : s.queue_tail < LOG_DMA_BUFFER_SIZE) :
    (s.queue_head + pendingCount s) % LOG_DMA_BUFFER_SIZE = s.queue_tail := by
  unfold pendingCount
  simp only [LOG_DMA_BUFFER_SIZE] at *
  omega

theorem dma_pending_eq (head tail : Nat)
    (hh : head < LOG_DMA_BUFFER_SIZE) (ht : tail < LOG_DMA_BUFFER_SIZE) :
    dma_pending head tail =
      (tail + LOG_DMA_BUFFER_SIZE - head) % LOG_DMA_BUFFER_SIZE := by
  unfold dma_pending
  simp only [LOG_DMA_BUFFER_SIZE] at *
  split <;> omega

theorem log_space_available_pending (head tail : Nat)
    (hh : head < LOG_DMA_BUFFER_SIZE) (ht : tail < LOG_DMA_BUFFER_SIZE) :
    log_space_available head tail =
      LOG_DMA_BUFFER_SIZE - 1 -
        (tail + LOG_DMA_BUFFER_SIZE - head) % LOG_DMA_BUFFER_SIZE := by
  unfold log_space_available
  simp only [LOG_DMA_BUFFER_SIZE] at *
  split <;> omega

theorem tailAfterCopy_pendingCount (head tail len : Nat)
    (hh : head < LOG_DMA_BUFFER_SIZE) (ht : tail < LOG_DMA_BUFFER_SIZE)
    (hfit : (tail + LOG_DMA_BUFFER_SIZE - head) % LOG_DMA_BUFFER_SIZE + len ≤
      LOG_DMA_BUFFER_SIZE - 1) :
    (tailAfterCopy tail len + LOG_DMA_BUFFER_SIZE - head) % LOG_DMA_BUFFER_SIZE =
      (tail + LOG_DMA_BUFFER_SIZE - head) % LOG_DMA_BUFFER_SIZE + len ∧
    tailAfterCopy tail len < LOG_DMA_BUFFER_SIZE := by
  unfold tailAfterCopy
  simp only [LOG_DMA_BUFFER_SIZE] at *
  constructor
  · split <;> omega
  · split <;> omega

end PendingArith

section SliceLemmas

theorem ringSlice_split (ring : Nat → Nat) (start m n : Nat) :
    ringSlice ring start (m + n) =
      ringSlice ring start m ++
        ringSlice ring ((start + m) % LOG_DMA_BUFFER_SIZE) n := by
  unfold ringSlice
  rw [List.range_add, List.map_append, List.map_map]
  congr 1
  refine List.map_congr_left ?_
  intro i hi
  simp only [Function.comp_apply]
  refine congrArg ring ?_
  conv_rhs => rw [Nat.mod_add_mod]
  congr 1
  omega

theorem ringSlice_congr (r₁ r₂ : Nat → Nat) (start n : Nat)
    (h : ∀ i, i < n →
      r₁ ((start + i) % LOG_DMA_BUFFER_SIZE) = r₂ ((start + i) % LOG_DMA_BUFFER_SIZE)) :
    ringSlice r₁ start n = ringSlice r₂ start n := by
  unfold ringSlice
  exact List.map_congr_left fun i hi => h i (List.mem_range.mp hi)

theorem ringSlice_copy_self (ring item : Nat → Nat) (tail len : Nat)
    (ht : tail < LOG_DMA_BUFFER_SIZE) (hlen : len ≤ LOG_DMA_BUFFER_SIZE) :
    ringSlice (copyIntoRing ring tail item len) tail len = itemBytes item len := by
  unfold ringSlice itemBytes
  exact List.map_congr_left fun i hi =>
    copyIntoRing_write ring tail item len ht hlen i (List.mem_range.mp hi)

theorem ringSlice_copy_frame (ring item : Nat → Nat) (head tail n len : Nat)
    (ht : tail < LOG_DMA_BUFFER_SIZE) (hlen : len ≤ LOG_DMA_BUFFER_SIZE)
    (hdisj : ∀ i j, i < n → j < len →
      (head + i) % LOG_DMA_BUFFER_SIZE ≠ (tail + j) % LOG_DMA_BUFFER_SIZE) :
    ringSlice (copyIntoRing ring tail item len) head n = ringSlice ring head n := by
  apply ringSlice_congr
  intro i hi
  exact copyIntoRing_frame ring tail item len ht hlen _ fun j hj => hdisj i j hi hj

/-- An accepted copy extends the pending region by exactly the item bytes
and leaves the previously pending bytes untouched. -/
theorem pendingBytes_after_copy (s : LogState) (item : Nat → Nat) (len : Nat)
    (hh : s.queue_head < LOG_DMA_BUFFER_SIZE)
    (ht : s.queue_tail < LOG_DMA_BUFFER_SIZE)
    (hfit : pendingCount s + len ≤ LOG_DMA_BUFFER_SIZE - 1) :
    pendingCount (acceptState s item len) = pendingCount s + len ∧
    pendingBytes (acceptState s item len) = pendingBytes s ++ itemBytes item len := by
  have hcount :
      pendingCount (acceptState s item len) = pendingCount s + len :=
    (tailAfterCopy_pendingCount s.queue_head s.queue_tail len hh ht hfit).1
  refine ⟨hcount, ?_⟩
  have hlenC : len ≤ LOG_DMA_BUFFER_SIZE := by
    have := pendingCount_lt s
    omega
  have hdisj : ∀ i j, i < pendingCount s → j < len →
      (s.queue_head + i) % LOG_DMA_BUFFER_SIZE ≠
        (s.queue_tail + j) % LOG_DMA_BUFFER_SIZE := by
    intro i j hi hj hcon
    rw [← head_add_pendingCount s hh ht, Nat.mod_add_mod] at hcon
    unfold pendingCount at hi hfit hcon
    simp only [LOG_DMA_BUFFER_SIZE] at *
    omega
  show ringSlice (copyIntoRing s.ring s.queue_tail item len) s.queue_head
      (pendingCount (acceptState s item len)) = _
  rw [hcount, ringSlice_split, head_add_pendingCount s hh ht,
    ringSlice_copy_frame s.ring item s.queue_head s.queue_tail (pendingCount s) len
      ht hlenC hdisj,
    ringSlice_copy_self s.ring item s.queue_tail len ht hlenC]
  rfl

end SliceLemmas

section InvariantPreservation

/-- Lemma: `restart_dma` restores the full invariant from any state whose indices
are in range, whose busy clause holds, and whose histories balance: in
particular it re-establishes the idle clause. -/
theorem inv_restart_general (s : LogState)
    (hh : s.queue_head < LOG_DMA_BUFFER_SIZE)
    (ht : s.queue_tail < LOG_DMA_BUFFER_SIZE)
    (hbusy : s.busy = true → 0 < s.last_dma_count ∧
      s.last_dma_count ≤ pendingCount s ∧
      s.queue_head + s.last_dma_count ≤ LOG_DMA_BUFFER_SIZE)
    (hout : s.output ++ pendingBytes s = s.enqueued) :
    Inv (restart_dma s).1 := by
  by_cases hb : s.busy = true
  · rw [restart_dma_busy_case s hb]
    refine ⟨hh, ht, hbusy, ?_, hout⟩
    intro hf
    rw [hf] at hb
    exact absurd hb (by decide)
  · have hb' : s.busy = false := by
      cases hbb : s.busy
      · rfl
      · exact absurd hbb hb
    have hlast : (restart_dma s).1.last_dma_count =
        min (dma_pending s.queue_head s.queue_tail)
          (LOG_DMA_BUFFER_SIZE - s.queue_head) := by
      rw [restart_dma_idle_case s hb']
    have hflag : (restart_dma s).1.busy =
        decide (0 < min (dma_pending s.queue_head s.queue_tail)
          (LOG_DMA_BUFFER_SIZE - s.queue_head)) := by
      rw [restart_dma_idle_case s hb']
    have hdp : dma_pending s.queue_head s.queue_tail = pendingCount s :=
      dma_pending_eq s.queue_head s.queue_tail hh ht
    have hmin1 : min (dma_pending s.queue_head s.queue_tail)
        (LOG_DMA_BUFFER_SIZE - s.queue_head) ≤ pendingCount s := by
      have := Nat.min_le_left (dma_pending s.queue_head s.queue_tail)
        (LOG_DMA_BUFFER_SIZE - s.queue_head)
      omega
    have hmin2 : min (dma_pending s.queue_head s.queue_tail)
        (LOG_DMA_BUFFER_SIZE - s.queue_head) ≤
          LOG_DMA_BUFFER_SIZE - s.queue_head :=
      Nat.min_le_right _ _
    refine ⟨?_, ?_, ?_, ?_, ?_⟩
    · rw [restart_dma_queue_head]
      exact hh
    · rw [restart_dma_queue_tail]
      exact ht
    · rw [hflag, hlast, restart_dma_pendingCount, restart_dma_queue_head]
      intro hbr
      have hq : 0 < min (dma_pending s.queue_head s.queue_tail)
          (LOG_DMA_BUFFER_SIZE - s.queue_head) := of_decide_eq_true hbr
      exact ⟨hq, hmin1, by omega⟩
    · rw [hflag, hlast, restart_dma_pendingCount]
      intro hbr
      have hq : ¬ 0 < min (dma_pending s.queue_head s.queue_tail)
          (LOG_DMA_BUFFER_SIZE - s.queue_head) := of_decide_eq_false hbr
      have hq0 : min (dma_pending s.queue_head s.queue_tail)
          (LOG_DMA_BUFFER_SIZE - s.queue_head) = 0 := by omega
      rcases Nat.min_eq_zero_iff.mp hq0 with hz | hz
      · exact ⟨hq0, by omega⟩
      · omega
    · rw [restart_dma_output, restart_dma_pendingBytes, restart_dma_enqueued]
      exact hout

theorem inv_logmsg (s : LogState) (item : Nat → Nat) (len : Nat) (h : Inv s) :
    Inv (logmsg s item len).1 := by
  obtain ⟨hh, ht, hbusy, hidle, hout⟩ := h
  by_cases hrej : len > log_space_available s.queue_head s.queue_tail
  · unfold logmsg
    rw [if_pos hrej]
    exact ⟨hh, ht, hbusy, hidle, hout⟩
  · rw [logmsg_accept s item len hrej]
    have hfit : pendingCount s + len ≤ LOG_DMA_BUFFER_SIZE - 1 := by
      have havail := log_space_available_pending s.queue_head s.queue_tail hh ht
      unfold pendingCount
      simp only [LOG_DMA_BUFFER_SIZE] at *
      omega
    obtain ⟨hcount, hbytes⟩ := pendingBytes_after_copy s item len hh ht hfit
    apply inv_restart_general
    · exact hh
    · exact (tailAfterCopy_pendingCount s.queue_head s.queue_tail len hh ht hfit).2
    · intro hbL
      obtain ⟨h1, h2, h3⟩ := hbusy hbL
      refine ⟨h1, ?_, h3⟩
      show s.last_dma_count ≤ pendingCount (acceptState s item len)
      rw [hcount]
      omega
    · show s.output ++ pendingBytes (acceptState s item len) =
        s.enqueued ++ itemBytes item len
      rw [hbytes, ← List.append_assoc, hout]

theorem complete_busy (s : LogState) (hb : s.busy = true) :
    complete s =
      HAL_UART_TxCpltCallback
        { s with busy := false, output := s.output ++ armedBytes s } := by
  unfold complete
  rw [hb]
  rfl

theorem complete_not_busy (s : LogState) (hb : s.busy = false) :
    complete s = s := by
  unfold complete
  rw [hb]
  rfl

theorem complete_eq (s : LogState) (hb : s.busy = true)
    (hne : s.queue_head ≠ s.queue_tail) :
    complete s = (restart_dma (afterComplete s)).1 := by
  rw [complete_busy s hb,
    callback_nonempty { s with busy := false, output := s.output ++ armedBytes s }
      hne]
  rfl

theorem complete_enqueued (s : LogState) : (complete s).enqueued = s.enqueued := by
  unfold complete HAL_UART_TxCpltCallback
  split
  · split
    · rfl
    · rw [restart_dma_enqueued]
  · rfl

theorem afterComplete_pendingCount (s : LogState)
    (hh : s.queue_head < LOG_DMA_BUFFER_SIZE)
    (ht : s.queue_tail < LOG_DMA_BUFFER_SIZE)
    (hlC : s.queue_head + s.last_dma_count ≤ LOG_DMA_BUFFER_SIZE)
    (hlp : s.last_dma_count ≤ pendingCount s) :
    pendingCount (afterComplete s) = pendingCount s - s.last_dma_count := by
  unfold pendingCount afterComplete at *
  dsimp only
  simp only [LOG_DMA_BUFFER_SIZE] at *
  split <;> omega

theorem afterComplete_queue_head (s : LogState)
    (_hh : s.queue_head < LOG_DMA_BUFFER_SIZE)
    (hlC : s.queue_head + s.last_dma_count ≤ LOG_DMA_BUFFER_SIZE) :
    (afterComplete s).queue_head =
      (s.queue_head + s.last_dma_count) % LOG_DMA_BUFFER_SIZE := by
  unfold afterComplete
  dsimp only
  simp only [LOG_DMA_BUFFER_SIZE] at *
  split
  · rw [Nat.mod_eq_sub_mod (by omega), Nat.mod_eq_of_lt (by omega)]
  · rw [Nat.mod_eq_of_lt (by omega)]

theorem inv_complete (s : LogState) (h : Inv s) : Inv (complete s) := by
  obtain ⟨hh, ht, hbusy, hidle, hout⟩ := h
  by_cases hb : s.busy = true
  · obtain ⟨hl0, hlp, hlC⟩ := hbusy hb
    have hpgt : 0 < pendingCount s := by omega
    have hne : s.queue_head ≠ s.queue_tail := by
      intro hcon
      have h0 := (pendingCount_eq_zero_iff s hh ht).mpr hcon
      omega
    rw [complete_eq s hb hne]
    have hcount := afterComplete_pendingCount s hh ht hlC hlp
    have hheadC := afterComplete_queue_head s hh hlC
    apply inv_restart_general
    · rw [hheadC]
      exact Nat.mod_lt _ (by decide)
    · exact ht
    · intro hbf
      exact (Bool.false_ne_true hbf).elim
    · show (s.output ++ armedBytes s) ++ pendingBytes (afterComplete s) = s.enqueued
      have hbytes : armedBytes s ++ pendingBytes (afterComplete s) = pendingBytes s := by
        unfold pendingBytes armedBytes
        rw [hcount, hheadC]
        have hsplit := ringSlice_split s.ring s.queue_head s.last_dma_count
          (pendingCount s - s.last_dma_count)
        rw [show s.last_dma_count + (pendingCount s - s.last_dma_count) =
          pendingCount s by omega] at hsplit
        exact hsplit.symm
      rw [List.append_assoc, hbytes, hout]
  · have hb' : s.busy = false := by
      cases hbb : s.busy
      · rfl
      · exact absurd hbb hb
    rw [complete_not_busy s hb']
    exact ⟨hh, ht, hbusy, hidle, hout⟩

theorem inv_init : Inv log_init := by
  refine ⟨by decide, by decide, ?_, ?_, rfl⟩
  · intro hf
    exact absurd hf (by decide)
  · intro hf
    exact ⟨rfl, by decide⟩

theorem reachable_inv (s : LogState) (h : Reachable s) : Inv s := by
  induction h with
  | init => exact inv_init
  | msg s item len hs ih => exact inv_logmsg s item len ih
  | pump s hs ih => exact inv_restart_general s ih.1 ih.2.1 ih.2.2.1 ih.2.2.2.2
  | done s hs ih => exact inv_complete s ih

end InvariantPreservation

section Drain

theorem pendingCount_complete (s : LogState) (h : Inv s) (hb : s.busy = true) :
    pendingCount (complete s) = pendingCount s - s.last_dma_count := by
  obtain ⟨hh, ht, hbusy, hidle, hout⟩ := h
  obtain ⟨hl0, hlp, hlC⟩ := hbusy hb
  have hne : s.queue_head ≠ s.queue_tail := by
    intro hcon
    have h0 := (pendingCount_eq_zero_iff s hh ht).mpr hcon
    omega
  rw [complete_eq s hb hne, restart_dma_pendingCount]
  exact afterComplete_pendingCount s hh ht hlC hlp

/-- Once producers stop, `k` completion events flush the queue whenever at
most `k` bytes are pending: the output history then equals the enqueue
history. -/
theorem drain_outputs_all (k : Nat) :
    ∀ s, Inv s → pendingCount s ≤ k → (completeIter k s).output = s.enqueued := by
  induction k with
  | zero =>
    intro s h hp
    obtain ⟨hh, ht, hbusy, hidle, hout⟩ := h
    show s.output = s.enqueued
    rw [← hout]
    have hp0 : pendingCount s = 0 := by omega
    have hpb : pendingBytes s = [] := by
      unfold pendingBytes
      rw [hp0]
      rfl
    rw [hpb, List.append_nil]
  | succ k ih =>
    intro s h hp
    show (completeIter k (complete s)).output = s.enqueued
    by_cases hb : s.busy = true
    · have h2 := inv_complete s h
      have hl0 : 0 < s.last_dma_count := (h.2.2.1 hb).1
      have hc := pendingCount_complete s h hb
      rw [ih (complete s) h2 (by omega), complete_enqueued]
    · have hb' : s.busy = false := by
        cases hbb : s.busy
        · rfl
        · exact absurd hbb hb
      rw [complete_not_busy s hb']
      refine ih s h ?_
      have := (h.2.2.2.1 hb').2
      omega

end Drain

/-- C8: every reachable state of the subsystem (i.e. every state produced
by `log_init` followed by any interleaving of `logmsg`, `restart_dma` and
completion events) keeps both indices strictly below `SIZE`, is empty
exactly when `head = tail`, and never holds more than `SIZE - 1` pending
bytes. -/
theorem c8_invariant_preserved (s : LogState) (h : Reachable s) :
    s.queue_head < LOG_DMA_BUFFER_SIZE ∧
    s.queue_tail < LOG_DMA_BUFFER_SIZE ∧
    (pendingCount s = 0 ↔ s.queue_head = s.queue_tail) ∧
    pendingCount s ≤ LOG_DMA_BUFFER_SIZE - 1 := by
  obtain ⟨hh, ht, -, -, -⟩ := reachable_inv s h
  refine ⟨hh, ht, pendingCount_eq_zero_iff s hh ht, ?_⟩
  have := pendingCount_lt s
  omega

/-- C8 witness: the state reached by one accepted 7-byte enqueue from the
initial state. -/
theorem c8_witness :
    (logmsg log_init (fun i => 48 + i) 7).1.queue_head < LOG_DMA_BUFFER_SIZE ∧
    (logmsg log_init (fun i => 48 + i) 7).1.queue_tail < LOG_DMA_BUFFER_SIZE ∧
    (pendingCount (logmsg log_init (fun i => 48 + i) 7).1 = 0 ↔
      (logmsg log_init (fun i => 48 + i) 7).1.queue_head =
        (logmsg log_init (fun i => 48 + i) 7).1.queue_tail) ∧
    pendingCount (logmsg log_init (fun i => 48 + i) 7).1 ≤
      LOG_DMA_BUFFER_SIZE - 1 :=
  c8_invariant_preserved (logmsg log_init (fun i => 48 + i) 7).1
    (Reachable.msg log_init (fun i => 48 + i) 7 Reachable.init)

/-- C1: in every reachable state, the bytes already emitted by completed
transfers followed by the bytes still pending in the ring are, in order
and byte-for-byte, exactly the bytes the accepted enqueues wrote into the
ring (no loss, duplication, or reordering, wraparound included); and once
producers stop, at most `SIZE - 1` further completion events make the
output history equal the whole accepted-enqueue history. -/
theorem c1_fifo_byte_transport (s : LogState) (h : Reachable s) :
    s.output ++ pendingBytes s = s.enqueued ∧
    (completeIter (LOG_DMA_BUFFER_SIZE - 1) s).output = s.enqueued := by
  have hInv := reachable_inv s h
  refine ⟨hInv.2.2.2.2, ?_⟩
  refine drain_outputs_all (LOG_DMA_BUFFER_SIZE - 1) s hInv ?_
  have := pendingCount_lt s
  omega

/-- C1 witness: after one accepted 5-byte enqueue from the initial state,
the histories balance and draining emits exactly the enqueued bytes. -/
theorem c1_witness :
    (logmsg log_init (fun i => 65 + i) 5).1.output ++
        pendingBytes (logmsg log_init (fun i => 65 + i) 5).1 =
      (logmsg log_init (fun i => 65 + i) 5).1.enqueued ∧
    (completeIter (LOG_DMA_BUFFER_SIZE - 1)
        (logmsg log_init (fun i => 65 + i) 5).1).output =
      (logmsg log_init (fun i => 65 + i) 5).1.enqueued :=
  c1_fifo_byte_transport (logmsg log_init (fun i => 65 + i) 5).1
    (Reachable.msg log_init (fun i => 65 + i) 5 Reachable.init)

end Logger
